import Mathlib

/-!
Verification of the batch job-tracking core of ProYouTubers-Dubbing-Studio.

The embedding models, from the JavaScript source:
* `downloads` (HistoryStore): `loadProcesses`, `saveProcess`, `saveToStorage`
  from `apps/frontend/scripts/modules/downloads.js`;
* `bulkMode` (BatchSubmitter / BatchPoller / diff cache): `submitBulkDubbing`,
  `startPolling`, `updateProgress`, `updateVideoList`, `renderVideoCard`,
  `saveToDownloads` from the bulk-mode module (`src/unnamed/part_001`).

Conventions of the shallow embedding:
* JS strings are `String`, JS numeric timestamps are `Nat` (falsy iff `0` /
  `""`, matching the truthiness tests of the source).
* `localStorage` is a `Storage` record; the outcome of each successive
  `setItem` call is drawn from an explicit schedule list (`sched`), an empty
  schedule meaning every write succeeds.  `JSON.parse` failures are modelled
  by storing structured `Blob`s (`arr` / `nonArr` / `corrupt`).
* `Date.now()` is modelled by popping the head of an explicit `times` list
  (the environment's clock readings), and the random id generator by a
  counter `idCtr`.
* The run-to-completion JS semantics makes every method body atomic; the
  only interleaving points are the `await`ed fetches of the poller, which
  are modelled by explicit `resolveOk` / `resolveErr` events.
-/

/-- Error kind thrown by a `localStorage.setItem` call:
`QuotaExceededError` versus any other exception. -/
inductive JsErr where
  | quota
  | other
deriving DecidableEq, Repr

/-- A persisted history record (one element of `downloads.processes`).
Fields mirror the objects built in the source; display-only fields that no
logic reads (`timestampISO`, `mode`, `error`, `duration`) are omitted.
Absent JS fields are modelled by the falsy defaults `""` / `0`. -/
structure ProcessRecord where
  id : String := ""
  name : String := ""
  source : String := ""
  languages : String := ""
  videoUrl : String := ""
  timestamp : Nat := 0
  logs : String := ""
  status : String := ""
deriving DecidableEq, Repr

/-- Content stored under the `dubbing_processes` key: a well-formed JSON
array of records, a parseable non-array value, or an unparseable blob
(`corrupt raw` carries the raw string, whose truthiness the source tests). -/
inductive Blob where
  | arr (recs : List ProcessRecord)
  | nonArr
  | corrupt (raw : String)
deriving DecidableEq, Repr

/-- The `localStorage` slots used by the module plus the schedule of
outcomes for successive `setItem` calls (`none` = success; an exhausted
schedule means success). -/
structure Storage where
  main : Option Blob := none
  backup : Option Blob := none
  sched : List (Option JsErr) := []
deriving DecidableEq, Repr

/-- Pop the outcome of the next `setItem` call from the schedule. -/
def popSched (st : Storage) : Option JsErr × Storage :=
  match st.sched with
  | [] => (none, st)
  | o :: rest => (o, { st with sched := rest })

/-- `localStorage.setItem('dubbing_processes', blob)`: returns the thrown
error, if any, and the updated storage. -/
def setMain (b : Blob) (st : Storage) : Option JsErr × Storage :=
  let r := popSched st
  match r.1 with
  | none => (none, { r.2 with main := some b })
  | some e => (some e, r.2)

/-- `localStorage.setItem('dubbing_processes_backup', blob)`. -/
def setBackup (b : Blob) (st : Storage) : Option JsErr × Storage :=
  let r := popSched st
  match r.1 with
  | none => (none, { r.2 with backup := some b })
  | some e => (some e, r.2)

/-- Combined state of the `downloads` module and the bulk-mode save
bookkeeping, plus the environment sources (clock readings, id counter).
`journal` is a ghost field recording every insertion `saveProcess` performs
into `processes`; no modelled code reads it. -/
structure DState where
  processes : List ProcessRecord := []
  storage : Storage := {}
  savedDownloads : List String := []
  times : List Nat := []
  idCtr : Nat := 0
  journal : List ProcessRecord := []
deriving DecidableEq, Repr

/-- `Date.now()`: pop the next clock reading (an exhausted list reads 0). -/
def dateNow (s : DState) : Nat × DState :=
  match s.times with
  | [] => (0, s)
  | t :: rest => (t, { s with times := rest })

/-- The id `${Date.now()}-${Math.random()...}` assigned by `saveProcess`,
abstracted to a fresh nonempty string drawn from a counter. -/
def freshId (s : DState) : String × DState :=
  ("gen-" ++ toString s.idCtr, { s with idCtr := s.idCtr + 1 })

/-- `if (!processData.id) processData.id = ...` in `saveProcess`. -/
def assignId (d : ProcessRecord) (s : DState) : ProcessRecord × DState :=
  if d.id = "" then ({ d with id := (freshId s).1 }, (freshId s).2)
  else (d, s)

/-- `downloads.saveToStorage()`: serialize `processes` under the main key;
on `QuotaExceededError` trim the in-memory list to the 25 most recent and
retry once; a retry failure or a non-quota error returns `false` without
throwing. -/
def saveToStorage (s : DState) : Bool × DState :=
  let r1 := setMain (Blob.arr s.processes) s.storage
  match r1.1 with
  | none => (true, { s with storage := r1.2 })
  | some JsErr.quota =>
    let s1 : DState := { s with processes := s.processes.take 25, storage := r1.2 }
    let r2 := setMain (Blob.arr s1.processes) s1.storage
    match r2.1 with
    | none => (true, { s1 with storage := r2.2 })
    | some _ => (false, { s1 with storage := r2.2 })
  | some JsErr.other => (false, { s with storage := r1.2 })

/-- `downloads.saveProcess(processData)`: reject records with a falsy
`timestamp` or `name`; reject duplicates of the (`videoUrl`, `timestamp`)
key; assign an id if absent; unshift; trim to the 50 most recent; persist.
The returned `Bool` is the JS return value. -/
def saveProcess (d : ProcessRecord) (s : DState) : Bool × DState :=
  if d.timestamp = 0 ∨ d.name = "" then (false, s)
  else if ∃ p ∈ s.processes, p.videoUrl = d.videoUrl ∧ p.timestamp = d.timestamp then
    (false, s)
  else
    let d1 := (assignId d s).1
    let s1 := (assignId d s).2
    let s2 : DState :=
      { s1 with processes := d1 :: s1.processes, journal := s1.journal ++ [d1] }
    let s3 : DState :=
      if s2.processes.length > 50 then { s2 with processes := s2.processes.take 50 }
      else s2
    saveToStorage s3

/-- The validity filter `p && p.id && p.name && p.videoUrl` applied by
`loadProcesses` to each persisted entry. -/
def loadFilter (p : ProcessRecord) : Bool :=
  p.id != "" && p.name != "" && p.videoUrl != ""

/-- `downloads.loadProcesses()` (without the trailing render call): parse
the main blob, reset non-arrays, filter invalid entries.  A stored empty
string is falsy, so `stored ? JSON.parse(stored) : []` short-circuits: the
parse never runs, the history is just reset to empty and storage is left
untouched.  On a parse failure (a non-empty unparseable blob) the `catch`
backs the raw blob up under the backup key and clears the main key; that
backup `setItem` sits inside the `catch` block, so an error it throws
propagates to the caller (`Except.error`). -/
def loadProcesses (s : DState) : Except JsErr DState :=
  match s.storage.main with
  | none => Except.ok { s with processes := [] }
  | some (Blob.arr l) => Except.ok { s with processes := l.filter loadFilter }
  | some Blob.nonArr => Except.ok { s with processes := [] }
  | some (Blob.corrupt raw) =>
    if raw = "" then
      Except.ok { s with processes := [] }
    else
      let r := setBackup (Blob.corrupt raw) s.storage
      match r.1 with
      | none => Except.ok { s with processes := [], storage := { r.2 with main := none } }
      | some e => Except.error e

/-- Records carried by the main blob (empty for any non-array content). -/
def blobRecs : Option Blob → List ProcessRecord
  | some (Blob.arr l) => l
  | _ => []

/-- JS `String.prototype.trim` whitespace test on the characters the model
uses (space, tab, newline, carriage return). -/
def jsWs (c : Char) : Bool :=
  c == ' ' || c == '\t' || c == '\n' || c == '\r'

/-- Trim `jsWs` characters from both ends of a character list. -/
def trimChars (l : List Char) : List Char :=
  ((l.dropWhile jsWs).reverse.dropWhile jsWs).reverse

/-- The characters replaced by `_` in `sanitizeName`'s regular expression. -/
def sanitizedOut : List Char :=
  ['<', '>', ':', '"', '/', '\\', '|', '?', '*']

/-- The `sanitizeName` helper of the bulk-mode module:
`name.replace(/[<>:"/\\|?*]/g, '_').substring(0, 100).trim() || 'Video'`.
A non-string argument also yields `"Video"`; the model only passes strings,
with `""` for an absent name. -/
def sanitizeName (name : String) : String :=
  let replaced := name.data.map (fun c => if c ∈ sanitizedOut then '_' else c)
  let t := trimChars (replaced.take 100)
  if t = [] then "Video" else String.mk t

/-- One item of a poll response (`data.videos[i]`).  `result_video_url` is
`some u` when `video.result` exists and carries `video_url: u` (possibly
`""`); `none` when `video.result` or its `video_url` is absent.
`targetLangs` is `some l` when `video.target_langs` is an array. -/
structure Video where
  name : String := ""
  status : String := ""
  error : String := ""
  result_video_url : Option String := none
  targetLangs : Option (List String) := none
deriving DecidableEq, Repr

/-- Truthiness of `video.result?.video_url`. -/
def urlTruthy (v : Video) : Bool :=
  match v.result_video_url with
  | some u => u != ""
  | none => false

/-- `video.status === 'complete' || video.status === 'completed'`. -/
def isDoneStatus (v : Video) : Prop :=
  v.status = "complete" ∨ v.status = "completed"

instance (v : Video) : Decidable (isDoneStatus v) := by
  unfold isDoneStatus; infer_instance

/-- The `languages` string computed by `saveToDownloads`:
`Array.isArray(target_langs) ? join(', ') : (target_langs || 'Multiple')`. -/
def langsOf (v : Video) : String :=
  match v.targetLangs with
  | some l => String.intercalate ", " l
  | none => "Multiple"

/-- The download entry built by `bulkMode.saveToDownloads` for a completed
video with result URL `url` and clock reading `now`. -/
def completedEntry (v : Video) (url : String) (now : Nat) : ProcessRecord :=
  { name := sanitizeName v.name
    timestamp := now
    source := if v.name = "" then "Unknown" else v.name
    languages := langsOf v
    videoUrl := url
    logs := String.append "Bulk dubbing completed successfully for languages: " (langsOf v)
    status := "completed" }

/-- The download entry built inline by `bulkMode.updateVideoList` for a
failed video (note `videoUrl: ''`). -/
def failedEntry (v : Video) (now : Nat) : ProcessRecord :=
  { name := sanitizeName v.name
    timestamp := now
    source := if v.name = "" then "Unknown" else v.name
    videoUrl := ""
    logs := String.append "Bulk mode: " (if v.error = "" then "Unknown error" else v.error)
    status := "failed" }

/-- `bulkMode.saveToDownloads(video)`.  The `saveMutex` lock is acquired and
released within the call and the semantics is run-to-completion, so the set
is always free at entry and is modelled away.  When `video.result` or its
`video_url` is missing, the duplicate scan dereferences the missing field
(the throw is caught by the surrounding `try`) or the explicit URL guard
returns: either way the state is unchanged and no flag is set. -/
def saveToDownloads (v : Video) (s : DState) : DState :=
  match v.result_video_url with
  | none => s
  | some url =>
    if ∃ p ∈ s.processes, p.videoUrl = url ∧ p.name = v.name then s
    else if url = "" then s
    else
      let now := (dateNow s).1
      let s1 := (dateNow s).2
      let r := saveProcess (completedEntry v url now) s1
      if r.1 then { r.2 with savedDownloads := v.name :: r.2.savedDownloads } else r.2

/-- The save side effect of `bulkMode.renderVideoCard`: for a completed
video with a truthy result URL whose name is not yet in `savedDownloads`,
call `saveToDownloads` and then add the name unconditionally. -/
def renderCardSave (v : Video) (s : DState) : DState :=
  if isDoneStatus v ∧ urlTruthy v then
    if v.name ∈ s.savedDownloads then s
    else
      let s1 := saveToDownloads v s
      { s1 with savedDownloads := v.name :: s1.savedDownloads }
  else s

/-- One iteration of the `videos.forEach` loop in `bulkMode.updateVideoList`
(`src/unnamed/part_001`): render the card (which may itself save), then the
completed-status auto-save guarded by `savedDownloads`, then the
failed-status save which adds the name regardless of `saveProcess`'s
result. -/
def updateItem (v : Video) (s : DState) : DState :=
  let s1 := renderCardSave v s
  let s2 :=
    if isDoneStatus v ∧ v.name ∉ s1.savedDownloads then saveToDownloads v s1 else s1
  if v.status = "failed" ∧ v.name ∉ s2.savedDownloads then
    let now := (dateNow s2).1
    let s3 := (dateNow s2).2
    let s4 := (saveProcess (failedEntry v now) s3).2
    { s4 with savedDownloads := v.name :: s4.savedDownloads }
  else s2

/-- `bulkMode.updateVideoList(videos)` restricted to its store effects (the
DOM list rebuild is presentation-only). -/
def updateVideoList (videos : List Video) (s : DState) : DState :=
  videos.foldl (fun st v => updateItem v st) s

/-- `n` further poll ticks, each observing the same `videos` snapshot and
running `updateVideoList` on it. -/
def pollTicks (videos : List Video) : Nat → DState → DState
  | 0, s => s
  | n + 1, s => pollTicks videos n (updateVideoList videos s)

/-- A poll response body (`/api/jobs/bulk-status/...`). -/
structure BatchData where
  total : Nat := 0
  completed : Nat := 0
  processing : Nat := 0
  queued : Nat := 0
  failed : Nat := 0
  videos : List Video := []
deriving DecidableEq, Repr

/-- An in-flight status fetch: its identity, the `setInterval` registration
(schedule id) whose callback issued it, and the `batchId` the callback
closed over. -/
structure Req where
  rid : Nat
  sched : Nat
  batchId : String
deriving DecidableEq, Repr

/-- State of the `bulkMode` poller.  `pollInterval` holds the id of the
currently registered schedule (`none` after `clearInterval`); ids are drawn
from `nextSched`, so a fresh `setInterval` never reuses a cleared id.
`view` is the data last rendered by `updateProgress`. -/
structure PState where
  pollInterval : Option Nat := none
  schedBatch : String := ""
  pollErrorCount : Nat := 0
  currentBatchId : Option String := none
  nextSched : Nat := 0
  nextRid : Nat := 0
  inflight : List Req := []
  view : Option BatchData := none
  d : DState := {}
deriving DecidableEq, Repr

/-- `bulkMode.startPolling(batchId)` (`src/unnamed/part_001`): clear any
existing interval, clear the (never-written) `videoItemsCache`, reset the
failure counter, record the batch id and register a fresh schedule.
Clearing is modelled by overwriting `pollInterval`: a tick can only fire
for the schedule whose id is current. -/
def startPolling (b : String) (s : PState) : PState :=
  { s with pollInterval := some s.nextSched
           schedBatch := b
           nextSched := s.nextSched + 1
           pollErrorCount := 0
           currentBatchId := some b }

/-- `bulkMode.updateProgress(data)`: render the counters and progress bar
(`view`) and run `updateVideoList` on the reported videos. -/
def updateProgress (data : BatchData) (s : PState) : PState :=
  { s with view := some data, d := updateVideoList data.videos s.d }

/-- Events driving the poller: a (re)start, a firing of the registered
schedule (which issues one status fetch), and the resolution of an
in-flight fetch with a parsed body or a failure. -/
inductive Ev where
  | start (batchId : String)
  | tickFire
  | resolveOk (rid : Nat) (data : BatchData)
  | resolveErr (rid : Nat)
deriving DecidableEq, Repr

/-- One event of the poller semantics.  A tick only fires while a schedule
is registered (that is what `clearInterval` guarantees), but a resolution
event may arrive at any time for any in-flight request — the source checks
a response against nothing before acting on it.  A resolution for an
unknown request id is a no-op. -/
def step (e : Ev) (s : PState) : PState :=
  match e with
  | Ev.start b => startPolling b s
  | Ev.tickFire =>
    match s.pollInterval with
    | none => s
    | some g =>
      { s with inflight := s.inflight ++ [⟨s.nextRid, g, s.schedBatch⟩]
               nextRid := s.nextRid + 1 }
  | Ev.resolveOk rid data =>
    if s.inflight.any (fun r => r.rid == rid) then
      let s1 : PState :=
        { s with inflight := s.inflight.filter (fun r => r.rid != rid)
                 pollErrorCount := 0 }
      let s2 := updateProgress data s1
      if data.completed + data.failed ≥ data.total then { s2 with pollInterval := none }
      else s2
    else s
  | Ev.resolveErr rid =>
    if s.inflight.any (fun r => r.rid == rid) then
      let s1 : PState :=
        { s with inflight := s.inflight.filter (fun r => r.rid != rid)
                 pollErrorCount := s.pollErrorCount + 1 }
      if s1.pollErrorCount ≥ 5 then { s1 with pollInterval := none } else s1
    else s

/-- Run a sequence of poller events. -/
def runTrace (es : List Ev) (s : PState) : PState :=
  es.foldl (fun st e => step e st) s

/-- Split a character list at newline characters, JS `split('\n')`. -/
def splitCh : List Char → List (List Char)
  | [] => [[]]
  | c :: rest =>
    if c = '\n' then [] :: splitCh rest
    else
      match splitCh rest with
      | [] => [[c]]
      | h :: t => (c :: h) :: t

/-- `urlsText.split('\n').filter(u => u.trim()).length`: the number of
non-blank URL lines. -/
def countUrls (urls : List Char) : Nat :=
  ((splitCh urls).filter (fun p => !(trimChars p).isEmpty)).length

/-- Outcome of `bulkMode.submitBulkDubbing` up to the point where the
network request is (or is not) issued. -/
inductive SubmitAction where
  | rejectEmpty
  | rejectTooMany
  | rejectNoLangs
  | request
deriving DecidableEq, Repr

/-- `bulkMode.submitBulkDubbing` (`src/unnamed/part_001`), modelled on the
inputs its validation reads: the number of selected files, the characters
of the URL textarea, and the joined bulk target-language codes.  Each
rejection is an early `return` before `fetch('/api/jobs/bulk-run')`; only
`request` issues the network call. -/
def submitBulkDubbing (files : Nat) (urls : List Char) (targetLangs : String) :
    SubmitAction :=
  if files = 0 ∧ trimChars urls = [] then SubmitAction.rejectEmpty
  else if files + countUrls urls > 100 then SubmitAction.rejectTooMany
  else if targetLangs = "" then SubmitAction.rejectNoLangs
  else SubmitAction.request

/-! ### Helper lemmas about `assignId` and `saveProcess` -/

/-- The head-insert-then-trim performed by a successful `saveProcess`. -/
def insertTrim (l : List ProcessRecord) : List ProcessRecord :=
  if l.length > 50 then l.take 50 else l

theorem assignId_fst_name (d : ProcessRecord) (s : DState) :
    ((assignId d s).1).name = d.name := by
  unfold assignId; split <;> rfl

theorem assignId_fst_timestamp (d : ProcessRecord) (s : DState) :
    ((assignId d s).1).timestamp = d.timestamp := by
  unfold assignId; split <;> rfl

theorem assignId_fst_videoUrl (d : ProcessRecord) (s : DState) :
    ((assignId d s).1).videoUrl = d.videoUrl := by
  unfold assignId; split <;> rfl

theorem freshId_fst_ne (s : DState) : (freshId s).1 ≠ "" := by
  unfold freshId
  intro h
  have h2 := congrArg String.length (show "gen-" ++ toString s.idCtr = "" from h)
  simp [String.length_append] at h2
  exact absurd h2.1 (by decide)

theorem assignId_fst_id_ne (d : ProcessRecord) (s : DState) :
    ((assignId d s).1).id ≠ "" := by
  unfold assignId
  split
  · exact freshId_fst_ne s
  · next h => simpa using h

theorem assignId_snd (d : ProcessRecord) (s : DState) :
    (assignId d s).2 = { s with idCtr := ((assignId d s).2).idCtr } := by
  unfold assignId freshId; split <;> rfl

theorem saveToStorage_ok (s : DState) (hok : (popSched s.storage).1 = none) :
    saveToStorage s =
      (true,
        { s with storage :=
            { (popSched s.storage).2 with main := some (Blob.arr s.processes) } }) := by
  unfold saveToStorage setMain
  simp only [hok]

theorem saveProcess_insert (d : ProcessRecord) (s : DState)
    (hts : d.timestamp ≠ 0) (hname : d.name ≠ "")
    (hdup : ¬ ∃ p ∈ s.processes, p.videoUrl = d.videoUrl ∧ p.timestamp = d.timestamp)
    (hok : (popSched s.storage).1 = none) :
    saveProcess d s =
      (true,
        { s with
            processes := insertTrim ((assignId d s).1 :: s.processes)
            journal := s.journal ++ [(assignId d s).1]
            idCtr := ((assignId d s).2).idCtr
            storage :=
              { (popSched s.storage).2 with
                  main := some (Blob.arr (insertTrim ((assignId d s).1 :: s.processes))) } }) := by
  have hv : ¬ (d.timestamp = 0 ∨ d.name = "") := by
    rintro (h | h)
    · exact hts h
    · exact hname h
  unfold saveProcess
  rw [if_neg hv, if_neg hdup, assignId_snd d s]
  simp only []
  split
  · next h =>
    refine (saveToStorage_ok _ ?_).trans ?_
    · exact hok
    · simp only [insertTrim]
      rw [if_pos h]
  · next h =>
    refine (saveToStorage_ok _ ?_).trans ?_
    · exact hok
    · simp only [insertTrim]
      rw [if_neg h]

theorem popSched_main (st : Storage) : ((popSched st).2).main = st.main := by
  unfold popSched; split <;> rfl

theorem popSched_backup (st : Storage) : ((popSched st).2).backup = st.backup := by
  unfold popSched; split <;> rfl

theorem saveToStorage_other (s : DState)
    (h : (popSched s.storage).1 = some JsErr.other) :
    saveToStorage s = (false, { s with storage := (popSched s.storage).2 }) := by
  unfold saveToStorage setMain
  simp only [h]

theorem saveToStorage_quota_fail (s : DState) (e : JsErr)
    (h1 : (popSched s.storage).1 = some JsErr.quota)
    (h2 : (popSched (popSched s.storage).2).1 = some e) :
    saveToStorage s =
      (false,
        { s with processes := s.processes.take 25
                 storage := (popSched (popSched s.storage).2).2 }) := by
  unfold saveToStorage setMain
  simp only [h1, h2]

theorem insertTrim_cons (a : ProcessRecord) (l : List ProcessRecord) :
    insertTrim (a :: l) = a :: (insertTrim (a :: l)).tail := by
  unfold insertTrim
  split
  · rw [show (50 : Nat) = 49 + 1 from rfl, List.take_succ_cons]
    rfl
  · rfl

theorem insertTrim_len (l : List ProcessRecord) : (insertTrim l).length ≤ 50 := by
  unfold insertTrim
  split
  · next h => simp [List.length_take]
  · next h => omega

theorem saveToStorage_processes_cases (s : DState) :
    ((saveToStorage s).2).processes = s.processes ∨
      ((saveToStorage s).2).processes = s.processes.take 25 := by
  unfold saveToStorage setMain
  simp only []
  split
  · left; rfl
  · split
    · right; rfl
    · right; rfl
  · left; rfl

theorem saveProcess_len (d : ProcessRecord) (s : DState)
    (h : s.processes.length ≤ 50) :
    ((saveProcess d s).2).processes.length ≤ 50 := by
  have key : ∀ s3 : DState, s3.processes.length ≤ 50 →
      ((saveToStorage s3).2).processes.length ≤ 50 := by
    intro s3 h3
    rcases saveToStorage_processes_cases s3 with hc | hc <;> rw [hc]
    · exact h3
    · simp only [List.length_take]
      omega
  unfold saveProcess
  split
  · exact h
  · split
    · exact h
    · simp only []
      apply key
      split
      · next hl => simp only [List.length_take]; omega
      · next hl =>
        simp only [List.length_cons] at hl ⊢
        omega

theorem saveProcess_fail_other (d : ProcessRecord) (s : DState)
    (hts : d.timestamp ≠ 0) (hname : d.name ≠ "")
    (hdup : ¬ ∃ p ∈ s.processes, p.videoUrl = d.videoUrl ∧ p.timestamp = d.timestamp)
    (herr : (popSched s.storage).1 = some JsErr.other) :
    saveProcess d s =
      (false,
        { s with
            processes := insertTrim ((assignId d s).1 :: s.processes)
            journal := s.journal ++ [(assignId d s).1]
            idCtr := ((assignId d s).2).idCtr
            storage := (popSched s.storage).2 }) := by
  have hv : ¬ (d.timestamp = 0 ∨ d.name = "") := by
    rintro (h | h)
    · exact hts h
    · exact hname h
  unfold saveProcess
  rw [if_neg hv, if_neg hdup, assignId_snd d s]
  simp only []
  split
  · next h =>
    refine (saveToStorage_other _ ?_).trans ?_
    · exact herr
    · simp only [insertTrim]
      rw [if_pos h]
  · next h =>
    refine (saveToStorage_other _ ?_).trans ?_
    · exact herr
    · simp only [insertTrim]
      rw [if_neg h]

theorem saveProcess_fail_quota (d : ProcessRecord) (s : DState) (e : JsErr)
    (hts : d.timestamp ≠ 0) (hname : d.name ≠ "")
    (hdup : ¬ ∃ p ∈ s.processes, p.videoUrl = d.videoUrl ∧ p.timestamp = d.timestamp)
    (h1 : (popSched s.storage).1 = some JsErr.quota)
    (h2 : (popSched (popSched s.storage).2).1 = some e) :
    saveProcess d s =
      (false,
        { s with
            processes := ((assignId d s).1 :: s.processes).take 25
            journal := s.journal ++ [(assignId d s).1]
            idCtr := ((assignId d s).2).idCtr
            storage := (popSched (popSched s.storage).2).2 }) := by
  have hv : ¬ (d.timestamp = 0 ∨ d.name = "") := by
    rintro (h | h)
    · exact hts h
    · exact hname h
  unfold saveProcess
  rw [if_neg hv, if_neg hdup, assignId_snd d s]
  simp only []
  split
  · next h =>
    refine (saveToStorage_quota_fail _ e ?_ ?_).trans ?_
    · exact h1
    · exact h2
    · rw [List.take_take]
      norm_num
  · next h =>
    refine (saveToStorage_quota_fail _ e ?_ ?_).trans ?_
    · exact h1
    · exact h2
    · rfl

theorem loadProcesses_ok_mem (s s2 : DState)
    (h : loadProcesses s = Except.ok s2) :
    ∀ p ∈ s2.processes, p ∈ blobRecs s.storage.main := by
  intro p hp
  unfold loadProcesses at h
  rcases hmain : s.storage.main with _ | b
  · simp only [hmain, Except.ok.injEq] at h
    rw [← h] at hp
    simp at hp
  · rcases b with l | _ | raw
    · simp only [hmain, Except.ok.injEq] at h
      rw [← h] at hp
      simp only [List.mem_filter] at hp
      simpa [blobRecs] using hp.1
    · simp only [hmain, Except.ok.injEq] at h
      rw [← h] at hp
      simp at hp
    · simp only [hmain] at h
      by_cases hr : raw = ""
      · rw [if_pos hr] at h
        simp only [Except.ok.injEq] at h
        rw [← h] at hp
        simp at hp
      · rw [if_neg hr] at h
        split at h
        · simp only [Except.ok.injEq] at h
          rw [← h] at hp
          simp at hp
        · exact absurd h (by simp)

/-- C3: for every store state and record whose (`videoUrl`, `timestamp`)
key — the URL-valued locator the spec calls `sourceRef`, paired with the
record timestamp — equals that of a record already in the store,
`saveProcess` returns `false` and leaves the entire state (size, contents,
storage) unchanged; and whenever that key is fresh and the record is valid,
the append succeeds irrespective of any display-name collision, so the
duplicate-detection key is the (`videoUrl`, `timestamp`) pair and not the
name. -/
theorem c3_duplicate_key (s : DState) (d : ProcessRecord) :
    ((∃ p ∈ s.processes, p.videoUrl = d.videoUrl ∧ p.timestamp = d.timestamp) →
      saveProcess d s = (false, s)) ∧
    (d.timestamp ≠ 0 → d.name ≠ "" →
      (¬ ∃ p ∈ s.processes, p.videoUrl = d.videoUrl ∧ p.timestamp = d.timestamp) →
      (popSched s.storage).1 = none →
      (saveProcess d s).1 = true) := by
  constructor
  · intro h
    by_cases hv : d.timestamp = 0 ∨ d.name = ""
    · unfold saveProcess
      rw [if_pos hv]
    · unfold saveProcess
      rw [if_neg hv, if_pos h]
  · intro hts hname hdup hok
    rw [saveProcess_insert d s hts hname hdup hok]

def c3s : DState :=
  { processes := [{ id := "a1", name := "alpha", videoUrl := "u", timestamp := 5 }] }

def c3d : ProcessRecord := { name := "beta", videoUrl := "u", timestamp := 5 }

/-- Witness for C3 at a concrete store and record. -/
theorem c3_witness :
    (∃ p ∈ c3s.processes, p.videoUrl = c3d.videoUrl ∧ p.timestamp = c3d.timestamp) ∧
    saveProcess c3d c3s = (false, c3s) :=
  ⟨by decide, (c3_duplicate_key c3s c3d).1 (by decide)⟩

/-- C5: along any sequence of `saveProcess` appends the store never grows
beyond 50 entries, and appending a valid fresh record to a store of exactly
50 keeps the new head plus the 49 most recent old entries — the tail (the
oldest entry of the most-recent-first list) is evicted. -/
theorem c5_capacity :
    (∀ (s : DState) (ds : List ProcessRecord), s.processes.length ≤ 50 →
      ((ds.foldl (fun st d => (saveProcess d st).2) s).processes.length ≤ 50)) ∧
    (∀ (s : DState) (d : ProcessRecord), s.processes.length = 50 →
      d.timestamp ≠ 0 → d.name ≠ "" →
      (¬ ∃ p ∈ s.processes, p.videoUrl = d.videoUrl ∧ p.timestamp = d.timestamp) →
      (popSched s.storage).1 = none →
      (saveProcess d s).1 = true ∧
      ((saveProcess d s).2).processes = (assignId d s).1 :: s.processes.take 49) := by
  constructor
  · intro s ds
    induction ds generalizing s with
    | nil => intro h; simpa using h
    | cons d ds ih => intro h; exact ih _ (saveProcess_len d s h)
  · intro s d h50 hts hname hdup hok
    rw [saveProcess_insert d s hts hname hdup hok]
    refine ⟨rfl, ?_⟩
    simp only [insertTrim]
    rw [if_pos (by simp only [List.length_cons, h50]; omega)]
    rw [show (50 : Nat) = 49 + 1 from rfl, List.take_succ_cons]

def c5recs : List ProcessRecord :=
  (List.range 50).map (fun i => { id := "r", name := "n", videoUrl := "u", timestamp := i + 2 })

def c5s : DState := { processes := c5recs }

def c5d : ProcessRecord := { name := "new", videoUrl := "u", timestamp := 1 }

/-- Witness for C5: appending a 51st distinct record to a full store of 50
keeps the head plus the 49 most recent. -/
theorem c5_witness :
    c5s.processes.length = 50 ∧
    (saveProcess c5d c5s).1 = true ∧
    ((saveProcess c5d c5s).2).processes = (assignId c5d c5s).1 :: c5s.processes.take 49 := by
  refine ⟨by decide, ?_, ?_⟩
  · exact (c5_capacity.2 c5s c5d (by decide) (by decide) (by decide) (by decide) rfl).1
  · exact (c5_capacity.2 c5s c5d (by decide) (by decide) (by decide) (by decide) rfl).2

/-- C10: when a valid, non-duplicate record is appended but the storage
write fails — a non-quota error, or a quota error whose retry also fails —
`saveProcess` returns `false` while the record already sits at the head of
the in-memory list, and the persisted blob is left unchanged: the in-memory
store and the persisted store diverge. -/
theorem c10_non_atomic_append (s : DState) (d : ProcessRecord)
    (hts : d.timestamp ≠ 0) (hname : d.name ≠ "")
    (hdup : ¬ ∃ p ∈ s.processes, p.videoUrl = d.videoUrl ∧ p.timestamp = d.timestamp) :
    ((popSched s.storage).1 = some JsErr.other →
      (saveProcess d s).1 = false ∧
      ((saveProcess d s).2).processes.head? = some (assignId d s).1 ∧
      ((saveProcess d s).2).storage.main = s.storage.main) ∧
    (∀ e : JsErr, (popSched s.storage).1 = some JsErr.quota →
      (popSched (popSched s.storage).2).1 = some e →
      (saveProcess d s).1 = false ∧
      ((saveProcess d s).2).processes.head? = some (assignId d s).1 ∧
      ((saveProcess d s).2).storage.main = s.storage.main) := by
  constructor
  · intro herr
    rw [saveProcess_fail_other d s hts hname hdup herr]
    refine ⟨rfl, ?_, ?_⟩
    · rw [show ((false, { s with
            processes := insertTrim ((assignId d s).1 :: s.processes)
            journal := s.journal ++ [(assignId d s).1]
            idCtr := ((assignId d s).2).idCtr
            storage := (popSched s.storage).2 }) : Bool × DState).2.processes
          = insertTrim ((assignId d s).1 :: s.processes) from rfl]
      rw [insertTrim_cons]
      rfl
    · exact popSched_main s.storage
  · intro e h1 h2
    rw [saveProcess_fail_quota d s e hts hname hdup h1 h2]
    refine ⟨rfl, ?_, ?_⟩
    · rw [show (25 : Nat) = 24 + 1 from rfl, List.take_succ_cons]
      rfl
    · rw [show ((false, { s with
            processes := ((assignId d s).1 :: s.processes).take 25
            journal := s.journal ++ [(assignId d s).1]
            idCtr := ((assignId d s).2).idCtr
            storage := (popSched (popSched s.storage).2).2 }) : Bool × DState).2.storage.main
          = (popSched (popSched s.storage).2).2.main from rfl]
      rw [popSched_main, popSched_main]

def c10s : DState := { storage := { sched := [some JsErr.other] } }

def c10d : ProcessRecord := { name := "x", videoUrl := "u", timestamp := 3 }

/-- Witness for C10 at a concrete failing store. -/
theorem c10_witness :
    (saveProcess c10d c10s).1 = false ∧
    ((saveProcess c10d c10s).2).processes.head? = some (assignId c10d c10s).1 ∧
    ((saveProcess c10d c10s).2).storage.main = c10s.storage.main :=
  (c10_non_atomic_append c10s c10d (by decide) (by decide) (by decide)).1 rfl

/-- C4: when the first storage write of an append throws a quota error, the
in-memory list is trimmed to the 25 most recent entries and the write is
retried exactly once (the schedule advances by exactly two `setItem`
outcomes); if the retry also fails, `saveProcess` returns `false` without
throwing, the persisted blob is unchanged, and the just-appended record is
absent from the history returned by the next successful `loadProcesses`. -/
theorem c4_quota_trim_retry (s : DState) (d : ProcessRecord) (e : JsErr)
    (hts : d.timestamp ≠ 0) (hname : d.name ≠ "")
    (hdup : ¬ ∃ p ∈ s.processes, p.videoUrl = d.videoUrl ∧ p.timestamp = d.timestamp)
    (h1 : (popSched s.storage).1 = some JsErr.quota)
    (h2 : (popSched (popSched s.storage).2).1 = some e)
    (hfresh : ∀ p ∈ blobRecs s.storage.main, p.timestamp ≠ d.timestamp) :
    (saveProcess d s).1 = false ∧
    ((saveProcess d s).2).processes = ((assignId d s).1 :: s.processes).take 25 ∧
    ((saveProcess d s).2).storage.main = s.storage.main ∧
    ((saveProcess d s).2).storage.sched = (popSched (popSched s.storage).2).2.sched ∧
    (∀ s2, loadProcesses ((saveProcess d s).2) = Except.ok s2 →
      (assignId d s).1 ∉ s2.processes) := by
  rw [saveProcess_fail_quota d s e hts hname hdup h1 h2]
  have hmain :
      ({ s with
          processes := ((assignId d s).1 :: s.processes).take 25
          journal := s.journal ++ [(assignId d s).1]
          idCtr := ((assignId d s).2).idCtr
          storage := (popSched (popSched s.storage).2).2 } : DState).storage.main
        = s.storage.main := by
    simp only []
    rw [popSched_main, popSched_main]
  refine ⟨rfl, rfl, hmain, rfl, ?_⟩
  intro s2 hld hmem
  have hsub := loadProcesses_ok_mem _ s2 hld ((assignId d s).1) hmem
  rw [hmain] at hsub
  exact hfresh _ hsub (assignId_fst_timestamp d s)

def c4s : DState :=
  { storage :=
      { main := some (Blob.arr [])
        sched := [some JsErr.quota, some JsErr.quota] } }

def c4d : ProcessRecord := { name := "y", videoUrl := "w", timestamp := 9 }

/-- Witness for C4 at a concrete state whose quota write and retry fail. -/
theorem c4_witness :
    (saveProcess c4d c4s).1 = false ∧
    ((saveProcess c4d c4s).2).processes = ((assignId c4d c4s).1 :: c4s.processes).take 25 ∧
    ((saveProcess c4d c4s).2).storage.main = c4s.storage.main ∧
    ((saveProcess c4d c4s).2).storage.sched = (popSched (popSched c4s.storage).2).2.sched ∧
    (∀ s2, loadProcesses ((saveProcess c4d c4s).2) = Except.ok s2 →
      (assignId c4d c4s).1 ∉ s2.processes) :=
  c4_quota_trim_retry c4s c4d JsErr.quota (by decide) (by decide) (by decide)
    rfl rfl (by decide)

theorem loadProcesses_ok_valid (s s2 : DState)
    (h : loadProcesses s = Except.ok s2) :
    ∀ p ∈ s2.processes, loadFilter p = true := by
  intro p hp
  unfold loadProcesses at h
  rcases hmain : s.storage.main with _ | b
  · simp only [hmain, Except.ok.injEq] at h
    rw [← h] at hp
    simp at hp
  · rcases b with l | _ | raw
    · simp only [hmain, Except.ok.injEq] at h
      rw [← h] at hp
      simp only [List.mem_filter] at hp
      exact hp.2
    · simp only [hmain, Except.ok.injEq] at h
      rw [← h] at hp
      simp at hp
    · simp only [hmain] at h
      by_cases hr : raw = ""
      · rw [if_pos hr] at h
        simp only [Except.ok.injEq] at h
        rw [← h] at hp
        simp at hp
      · rw [if_neg hr] at h
        split at h
        · simp only [Except.ok.injEq] at h
          rw [← h] at hp
          simp at hp
        · exact absurd h (by simp)

theorem sanitizeName_ne (n : String) : sanitizeName n ≠ "" := by
  unfold sanitizeName
  simp only []
  split
  · decide
  · next h =>
    intro hc
    have hd := congrArg String.data hc
    simp only [String.data] at hd
    exact h hd

theorem failed_not_done (v : Video) (hst : v.status = "failed") :
    ¬ isDoneStatus v := by
  unfold isDoneStatus
  rw [hst]
  rintro (h | h) <;> exact absurd h (by decide)

theorem updateItem_failed (v : Video) (s : DState) (now : Nat) (rest : List Nat)
    (hst : v.status = "failed")
    (hns : v.name ∉ s.savedDownloads)
    (htimes : s.times = now :: rest) :
    updateItem v s =
      { (saveProcess (failedEntry v now) { s with times := rest }).2 with
          savedDownloads := v.name ::
            ((saveProcess (failedEntry v now) { s with times := rest }).2).savedDownloads } := by
  have hnotdone := failed_not_done v hst
  simp only [updateItem, renderCardSave, dateNow, hnotdone, hst, hns, htimes,
    false_and, if_false, ite_false, not_false_eq_true, and_true, true_and, if_true,
    ite_true, not_false_iff, eq_self_iff_true]

/-- C9: every record in a history successfully returned by `loadProcesses`
has a non-empty `id`, `name` and `videoUrl` (invalid entries are silently
filtered); in particular a failed-job record, saved with `videoUrl: ''` by
`updateVideoList`, sits at the head of the in-memory list right after the
append but is absent from the history returned by the next successful
load. -/
theorem c9_load_invariant :
    (∀ (s s2 : DState), loadProcesses s = Except.ok s2 →
      ∀ p ∈ s2.processes, p.id ≠ "" ∧ p.name ≠ "" ∧ p.videoUrl ≠ "") ∧
    (∀ (s : DState) (v : Video) (now : Nat) (rest : List Nat),
      s.times = now :: rest → now ≠ 0 →
      v.status = "failed" → v.name ∉ s.savedDownloads →
      (¬ ∃ p ∈ s.processes, p.videoUrl = "" ∧ p.timestamp = now) →
      (popSched s.storage).1 = none →
      ((updateItem v s).processes.head? =
          some (assignId (failedEntry v now) { s with times := rest }).1 ∧
        ((assignId (failedEntry v now) { s with times := rest }).1).videoUrl = "" ∧
        (∀ s2, loadProcesses (updateItem v s) = Except.ok s2 →
          (assignId (failedEntry v now) { s with times := rest }).1 ∉ s2.processes))) := by
  constructor
  · intro s s2 h p hp
    have hf := loadProcesses_ok_valid s s2 h p hp
    simp only [loadFilter, Bool.and_eq_true, bne_iff_ne] at hf
    exact ⟨hf.1.1, hf.1.2, hf.2⟩
  · intro s v now rest htimes hnow hst hns hdup hok
    have hts : (failedEntry v now).timestamp ≠ 0 := hnow
    have hname : (failedEntry v now).name ≠ "" := sanitizeName_ne v.name
    have hdup2 : ¬ ∃ p ∈ ({ s with times := rest } : DState).processes,
        p.videoUrl = (failedEntry v now).videoUrl ∧
          p.timestamp = (failedEntry v now).timestamp := by
      simpa [failedEntry] using hdup
    have hok2 : (popSched ({ s with times := rest } : DState).storage).1 = none := hok
    rw [updateItem_failed v s now rest hst hns htimes]
    rw [saveProcess_insert (failedEntry v now) { s with times := rest } hts hname hdup2 hok2]
    refine ⟨?_, ?_, ?_⟩
    · simp only []
      rw [insertTrim_cons]
      rfl
    · rw [assignId_fst_videoUrl]
      rfl
    · intro s2 hld hmem
      have hval := loadProcesses_ok_valid _ s2 hld _ hmem
      simp only [loadFilter, Bool.and_eq_true, bne_iff_ne] at hval
      exact hval.2 (by rw [assignId_fst_videoUrl]; rfl)

def c9s : DState := { times := [5] }

def c9v : Video := { name := "f", status := "failed", error := "e" }

/-- Witness for C9 at a concrete failed video and fresh state. -/
theorem c9_witness :
    (updateItem c9v c9s).processes.head? =
        some (assignId (failedEntry c9v 5) { c9s with times := [] }).1 ∧
      ((assignId (failedEntry c9v 5) { c9s with times := [] }).1).videoUrl = "" ∧
      (∀ s2, loadProcesses (updateItem c9v c9s) = Except.ok s2 →
        (assignId (failedEntry c9v 5) { c9s with times := [] }).1 ∉ s2.processes) :=
  c9_load_invariant.2 c9s c9v 5 [] rfl (by decide) rfl (by decide) (by decide) rfl

/-- C6 (amended): for every blob that actually fails to parse — a
non-empty unparseable string, since a stored empty string short-circuits
the truthiness test before `JSON.parse` and simply resets the history with
storage untouched — `loadProcesses` copies the blob to the backup key,
removes the original and returns an empty history, provided the quarantine
write itself succeeds; parseable content (an array, a non-array value, or
an absent blob) never raises either.  The claim's unconditional
"never raises" fails: see the counterexample. -/
theorem c6_corruption_quarantine :
    (∀ (s : DState) (raw : String),
      s.storage.main = some (Blob.corrupt raw) → raw ≠ "" →
      (popSched s.storage).1 = none →
      loadProcesses s =
        Except.ok
          { s with
              processes := []
              storage :=
                { (popSched s.storage).2 with
                    main := none
                    backup := some (Blob.corrupt raw) } }) ∧
    (∀ (s : DState) (l : List ProcessRecord), s.storage.main = some (Blob.arr l) →
      loadProcesses s = Except.ok { s with processes := l.filter loadFilter }) ∧
    (∀ s : DState, s.storage.main = none ∨ s.storage.main = some Blob.nonArr →
      loadProcesses s = Except.ok { s with processes := [] }) ∧
    (∀ s : DState, s.storage.main = some (Blob.corrupt "") →
      loadProcesses s = Except.ok { s with processes := [] }) := by
  refine ⟨?_, ?_, ?_, ?_⟩
  · intro s raw hmain hraw hok
    unfold loadProcesses
    simp only [hmain]
    rw [if_neg hraw]
    simp only [setBackup, hok]
  · intro s l hmain
    unfold loadProcesses
    simp only [hmain]
  · intro s h
    rcases h with h | h <;> (unfold loadProcesses; simp only [h])
  · intro s hmain
    unfold loadProcesses
    simp only [hmain, if_true]

def c6bad : DState :=
  { storage := { main := some (Blob.corrupt "xyz"), sched := [some JsErr.quota] } }

/-- Counterexample to C6 as stated: for a non-empty corrupt blob whose
quarantine `setItem` throws (the write sits inside the `catch` block with
no inner handler), `loadProcesses` raises the error to its caller instead
of returning — so "load() never raises an error to its caller" is false. -/
theorem c6_counterexample :
    c6bad.storage.main = some (Blob.corrupt "xyz") ∧
    loadProcesses c6bad = Except.error JsErr.quota := by
  refine ⟨rfl, rfl⟩

def c6ok : DState := { storage := { main := some (Blob.corrupt "bad") } }

/-- Witness for the amended C6 at a concrete corrupt blob. -/
theorem c6_witness :
    loadProcesses c6ok =
      Except.ok
        { c6ok with
            processes := []
            storage :=
              { (popSched c6ok.storage).2 with
                  main := none
                  backup := some (Blob.corrupt "bad") } } :=
  c6_corruption_quarantine.1 c6ok "bad" rfl (by decide) rfl

/-! ### Whitespace and line-splitting facts used by the submitter claim -/

theorem splitCh_ne_nil (l : List Char) : splitCh l ≠ [] := by
  induction l with
  | nil => simp [splitCh]
  | cons c rest ih =>
    unfold splitCh
    split
    · simp
    · cases hr : splitCh rest with
      | nil => simp
      | cons h t => simp

theorem trimChars_eq_nil_iff (l : List Char) :
    trimChars l = [] ↔ ∀ c ∈ l, jsWs c = true := by
  unfold trimChars
  rw [List.reverse_eq_nil_iff, List.dropWhile_eq_nil_iff]
  constructor
  · intro h c hc
    by_cases hcl : c ∈ l.dropWhile jsWs
    · exact h c (by simpa using hcl)
    · rcases (List.takeWhile_append_dropWhile (p := jsWs) (l := l)).symm ▸ hc with hx
      rw [List.mem_append] at hx
      rcases hx with hx | hx
      · exact List.mem_takeWhile_imp hx
      · exact absurd hx hcl
  · intro h c hc
    rw [List.mem_reverse] at hc
    exact h c (List.Sublist.mem hc (List.dropWhile_sublist jsWs))

theorem isEmpty_true_iff (l : List Char) : l.isEmpty = true ↔ l = [] := by
  cases l <;> simp

theorem splitCh_all_ws (l : List Char) (h : ∀ c ∈ l, jsWs c = true) :
    ∀ p ∈ splitCh l, ∀ c ∈ p, jsWs c = true := by
  induction l with
  | nil =>
    intro p hp c hc
    simp [splitCh] at hp
    rw [hp] at hc
    simp at hc
  | cons a rest ih =>
    intro p hp c hc
    have hrest : ∀ c ∈ rest, jsWs c = true := fun x hx => h x (List.mem_cons_of_mem a hx)
    unfold splitCh at hp
    split at hp
    · rcases List.mem_cons.1 hp with hp | hp
      · rw [hp] at hc
        simp at hc
      · exact ih hrest p hp c hc
    · cases hr : splitCh rest with
      | nil => exact absurd hr (splitCh_ne_nil rest)
      | cons ph pt =>
        rw [hr] at hp
        rcases List.mem_cons.1 hp with hp | hp
        · rw [hp] at hc
          rcases List.mem_cons.1 hc with hc | hc
          · rw [hc]
            exact h a (List.mem_cons_self a rest)
          · exact ih hrest ph (hr ▸ List.mem_cons_self ph pt) c hc
        · exact ih hrest p (hr ▸ List.mem_cons_of_mem ph hp) c hc

theorem splitCh_ws_of_pieces (l : List Char)
    (h : ∀ p ∈ splitCh l, ∀ c ∈ p, jsWs c = true) :
    ∀ c ∈ l, jsWs c = true := by
  induction l with
  | nil => simp
  | cons a rest ih =>
    intro c hc
    unfold splitCh at h
    by_cases ha : a = '\n'
    · rw [if_pos ha] at h
      rcases List.mem_cons.1 hc with hc | hc
      · rw [hc, ha]; rfl
      · exact ih (fun p hp => h p (List.mem_cons_of_mem [] hp)) c hc
    · rw [if_neg ha] at h
      cases hr : splitCh rest with
      | nil => exact absurd hr (splitCh_ne_nil rest)
      | cons ph pt =>
        rw [hr] at h
        have hhead : ∀ x ∈ a :: ph, jsWs x = true :=
          h (a :: ph) (List.mem_cons_self (a :: ph) pt)
        rcases List.mem_cons.1 hc with hc | hc
        · rw [hc]
          exact hhead a (List.mem_cons_self a ph)
        · refine ih ?_ c hc
          intro p hp
          rw [hr] at hp
          rcases List.mem_cons.1 hp with hp | hp
          · intro x hx
            exact hhead x (hp ▸ List.mem_cons_of_mem a hx)
          · exact fun x hx => h p (List.mem_cons_of_mem _ hp) x hx

theorem countUrls_eq_zero_of_trim (l : List Char) (h : trimChars l = []) :
    countUrls l = 0 := by
  unfold countUrls
  rw [List.length_eq_zero, List.filter_eq_nil_iff]
  intro p hp
  have hws := splitCh_all_ws l ((trimChars_eq_nil_iff l).1 h) p hp
  have hnil : trimChars p = [] := (trimChars_eq_nil_iff p).2 hws
  simp [hnil]

theorem trim_eq_nil_of_countUrls (l : List Char) (h : countUrls l = 0) :
    trimChars l = [] := by
  unfold countUrls at h
  rw [List.length_eq_zero, List.filter_eq_nil_iff] at h
  rw [trimChars_eq_nil_iff]
  refine splitCh_ws_of_pieces l ?_
  intro p hp
  have h2 := h p hp
  have hie : (trimChars p).isEmpty = true := by
    cases hie : (trimChars p).isEmpty
    · exact absurd (by rw [hie]; rfl) h2
    · rfl
  exact (trimChars_eq_nil_iff p).1 ((isEmpty_true_iff (trimChars p)).1 hie)

/-- C7: `submitBulkDubbing` rejects locally — before any network request —
whenever the combined item count (files plus non-blank URL lines) exceeds
100, and whenever there is no file and no non-blank URL line; for every
input with 1 to 100 items whose required bulk target languages are present,
the submission request is issued.  The rejecting paths return before the
`fetch` call and before any persistent state is touched. -/
theorem c7_submit_validation (files : Nat) (urls : List Char) (targetLangs : String) :
    (files + countUrls urls > 100 →
      submitBulkDubbing files urls targetLangs = SubmitAction.rejectTooMany) ∧
    (files = 0 → countUrls urls = 0 →
      submitBulkDubbing files urls targetLangs = SubmitAction.rejectEmpty) ∧
    (1 ≤ files + countUrls urls → files + countUrls urls ≤ 100 → targetLangs ≠ "" →
      submitBulkDubbing files urls targetLangs = SubmitAction.request) := by
  refine ⟨?_, ?_, ?_⟩
  · intro hgt
    have hne : ¬ (files = 0 ∧ trimChars urls = []) := by
      rintro ⟨hf, ht⟩
      rw [hf, countUrls_eq_zero_of_trim urls ht] at hgt
      exact absurd hgt (by decide)
    unfold submitBulkDubbing
    rw [if_neg hne, if_pos hgt]
  · intro hf hc
    unfold submitBulkDubbing
    rw [if_pos ⟨hf, trim_eq_nil_of_countUrls urls hc⟩]
  · intro h1 h100 hlang
    have hne : ¬ (files = 0 ∧ trimChars urls = []) := by
      rintro ⟨hf, ht⟩
      rw [hf, countUrls_eq_zero_of_trim urls ht] at h1
      exact absurd h1 (by decide)
    unfold submitBulkDubbing
    rw [if_neg hne, if_neg (by omega), if_neg hlang]

def c7urls : List Char := ['a', '\n', 'b']

/-- Witness for C7: two non-blank URL lines and a target language
produce a request. -/
theorem c7_witness : submitBulkDubbing 0 c7urls "es" = SubmitAction.request :=
  (c7_submit_validation 0 c7urls "es").2.2 (by decide) (by decide) (by decide)

def pInit : PState := {}

def c2data : BatchData :=
  { total := 3, completed := 1, processing := 1, queued := 1, failed := 0, videos := [] }

def c2preState : PState := runTrace [Ev.start "b1", Ev.tickFire, Ev.start "b2"] pInit

/-- Counterexample to C2 as stated: a fetch issued for batch `b1` under
schedule 0 resolves after `startPolling("b2")` has registered schedule 1;
the response is tagged with the stale schedule, yet its resolution still
updates the progress view with the stale data — nothing checks a
generation token, so the response is not discarded. -/
theorem c2_counterexample :
    c2preState.inflight = [⟨0, 0, "b1"⟩] ∧
    c2preState.pollInterval = some 1 ∧
    (step (Ev.resolveOk 0 c2data) c2preState).view = some c2data := by
  refine ⟨rfl, rfl, rfl⟩

/-- C2 (amended): restarting the poller registers a fresh schedule id and
`clearInterval` prevents any further tick of the superseded schedule from
issuing a request (a tick fires only for the current schedule), but an
already-in-flight response is never checked against any generation marker:
whenever it resolves — stale or not — it updates the progress view and runs
the update path. -/
theorem c2_no_stale_discard :
    (∀ s : PState, s.pollInterval = none → step Ev.tickFire s = s) ∧
    (∀ (s : PState) (b : String),
      (startPolling b s).pollInterval = some s.nextSched ∧
      (startPolling b s).nextSched = s.nextSched + 1 ∧
      (step Ev.tickFire (startPolling b s)).inflight =
        s.inflight ++ [⟨s.nextRid, s.nextSched, b⟩]) ∧
    (∀ (s : PState) (rid : Nat) (data : BatchData),
      (s.inflight.any (fun r => r.rid == rid)) = true →
      (step (Ev.resolveOk rid data) s).view = some data) := by
  refine ⟨?_, ?_, ?_⟩
  · intro s h
    simp only [step]
    simp only [h]
  · intro s b
    exact ⟨rfl, rfl, rfl⟩
  · intro s rid data h
    simp only [step]
    rw [if_pos h]
    split <;> rfl

/-- Witness for the amended C2: the stale response of `c2preState` resolves
and updates the view. -/
theorem c2_witness : (step (Ev.resolveOk 0 c2data) c2preState).view = some c2data :=
  c2_no_stale_discard.2.2 c2preState 0 c2data (by decide)

/-- C8: a successful fetch resolution resets the consecutive-failure
counter to 0 and a failed one increments it; the resolution that brings the
counter to 5 clears the schedule (and below 5 the schedule is untouched);
once stopped, no event except a new `start` re-registers a schedule or adds
an in-flight fetch; and a concrete run stops after exactly 5 consecutive
failures — after 4 it is still polling. -/
theorem c8_failure_threshold :
    (∀ (s : PState) (rid : Nat) (data : BatchData),
      (s.inflight.any (fun r => r.rid == rid)) = true →
      (step (Ev.resolveOk rid data) s).pollErrorCount = 0) ∧
    (∀ (s : PState) (rid : Nat),
      (s.inflight.any (fun r => r.rid == rid)) = true →
      (step (Ev.resolveErr rid) s).pollErrorCount = s.pollErrorCount + 1 ∧
      (s.pollErrorCount + 1 ≥ 5 → (step (Ev.resolveErr rid) s).pollInterval = none) ∧
      (s.pollErrorCount + 1 < 5 →
        (step (Ev.resolveErr rid) s).pollInterval = s.pollInterval)) ∧
    (∀ (s : PState) (e : Ev), s.pollInterval = none → (∀ b, e ≠ Ev.start b) →
      (step e s).pollInterval = none ∧
      ∀ r ∈ (step e s).inflight, r ∈ s.inflight) ∧
    ((runTrace [Ev.start "b", Ev.tickFire, Ev.resolveErr 0, Ev.tickFire, Ev.resolveErr 1,
        Ev.tickFire, Ev.resolveErr 2, Ev.tickFire, Ev.resolveErr 3,
        Ev.tickFire] pInit).pollInterval = some 0 ∧
      (runTrace [Ev.start "b", Ev.tickFire, Ev.resolveErr 0, Ev.tickFire, Ev.resolveErr 1,
        Ev.tickFire, Ev.resolveErr 2, Ev.tickFire, Ev.resolveErr 3,
        Ev.tickFire, Ev.resolveErr 4] pInit).pollInterval = none) := by
  refine ⟨?_, ?_, ?_, rfl, rfl⟩
  · intro s rid data h
    simp only [step]
    rw [if_pos h]
    split <;> rfl
  · intro s rid h
    simp only [step]
    rw [if_pos h]
    refine ⟨?_, ?_, ?_⟩
    · split <;> rfl
    · intro h5
      rw [if_pos h5]
    · intro h5
      rw [if_neg (by omega)]
  · intro s e hnone hns
    cases e with
    | start b => exact absurd rfl (hns b)
    | tickFire =>
      simp only [step]
      simp only [hnone]
      exact ⟨trivial, fun r hr => hr⟩
    | resolveOk rid data =>
      simp only [step]
      by_cases hin : (s.inflight.any (fun r => r.rid == rid)) = true
      · rw [if_pos hin]
        constructor
        · split
          · rfl
          · exact hnone
        · intro r hr
          split at hr <;> exact (List.mem_filter.1 hr).1
      · rw [if_neg hin]
        exact ⟨hnone, fun r hr => hr⟩
    | resolveErr rid =>
      simp only [step]
      by_cases hin : (s.inflight.any (fun r => r.rid == rid)) = true
      · rw [if_pos hin]
        constructor
        · split
          · rfl
          · exact hnone
        · intro r hr
          split at hr <;> exact (List.mem_filter.1 hr).1
      · rw [if_neg hin]
        exact ⟨hnone, fun r hr => hr⟩

def c8errState : PState :=
  runTrace [Ev.start "b", Ev.tickFire] pInit

/-- Witness for C8: resolving the in-flight fetch of `c8errState` with a
failure increments the counter from 0 to 1 and keeps the schedule. -/
theorem c8_witness :
    (step (Ev.resolveErr 0) c8errState).pollErrorCount = c8errState.pollErrorCount + 1 ∧
    (step (Ev.resolveErr 0) c8errState).pollInterval = c8errState.pollInterval := by
  refine ⟨(c8_failure_threshold.2.1 c8errState 0 (by decide)).1, ?_⟩
  exact (c8_failure_threshold.2.1 c8errState 0 (by decide)).2.2 (by decide)

/-! ### C1: exactly-once persistence per terminal item -/

/-- `video.result?.video_url ?? ''`: the result URL as the JS comparisons
see it. -/
def urlOf (v : Video) : String :=
  match v.result_video_url with
  | some u => u
  | none => ""

/-- An item whose terminal observation triggers a save: completed (either
spelling) with a truthy result URL, or failed. -/
def terminalSavable (v : Video) : Prop :=
  (isDoneStatus v ∧ urlTruthy v = true) ∨ v.status = "failed"

instance (v : Video) : Decidable (terminalSavable v) := by
  unfold terminalSavable
  infer_instance

theorem popSched_nil (st : Storage) (h : st.sched = []) : popSched st = (none, st) := by
  unfold popSched
  simp only [h]

theorem insertTrim_subset (p : ProcessRecord) (l : List ProcessRecord)
    (h : p ∈ insertTrim l) : p ∈ l := by
  unfold insertTrim at h
  split at h
  · exact List.take_subset _ _ h
  · exact h

theorem updateItem_saturated (v : Video) (s : DState)
    (hmem : v.name ∈ s.savedDownloads) : updateItem v s = s := by
  have hrc : renderCardSave v s = s := by
    unfold renderCardSave
    by_cases h1 : isDoneStatus v ∧ urlTruthy v = true
    · rw [if_pos h1, if_pos hmem]
    · rw [if_neg h1]
  unfold updateItem
  rw [hrc]
  simp only []
  rw [if_neg (show ¬ (isDoneStatus v ∧ v.name ∉ s.savedDownloads) from
        fun hc => hc.2 hmem)]
  rw [if_neg (show ¬ (v.status = "failed" ∧ v.name ∉ s.savedDownloads) from
        fun hc => hc.2 hmem)]

theorem updateVideoList_saturated (videos : List Video) (s : DState)
    (h : ∀ v ∈ videos, v.name ∈ s.savedDownloads) :
    updateVideoList videos s = s := by
  induction videos with
  | nil => rfl
  | cons v vs ih =>
    unfold updateVideoList
    simp only [List.foldl_cons]
    rw [updateItem_saturated v s (h v (List.mem_cons_self v vs))]
    exact ih (fun w hw => h w (List.mem_cons_of_mem v hw))

theorem pollTicks_saturated (videos : List Video) (n : Nat) (s : DState)
    (h : ∀ v ∈ videos, v.name ∈ s.savedDownloads) :
    pollTicks videos n s = s := by
  induction n with
  | zero => rfl
  | succ m ih =>
    unfold pollTicks
    rw [updateVideoList_saturated videos s h]
    exact ih

theorem updateItem_after_render (v : Video) (s : DState) (y : DState)
    (hrc : renderCardSave v s = y)
    (hmem : v.name ∈ y.savedDownloads)
    (hnf : v.status ≠ "failed") :
    updateItem v s = y := by
  unfold updateItem
  rw [hrc]
  simp only []
  rw [if_neg (show ¬ (isDoneStatus v ∧ v.name ∉ y.savedDownloads) from
        fun hc => hc.2 hmem)]
  rw [if_neg (show ¬ (v.status = "failed" ∧ v.name ∉ y.savedDownloads) from
        fun hc => hnf hc.1)]

theorem saveToDownloads_done (v : Video) (s : DState) (url : String)
    (now : Nat) (rest : List Nat)
    (hru : v.result_video_url = some url)
    (hne : url ≠ "")
    (hpre : ¬ ∃ p ∈ s.processes, p.videoUrl = url ∧ p.name = v.name)
    (htimes : s.times = now :: rest)
    (hnow : now ≠ 0)
    (hdup : ¬ ∃ p ∈ s.processes, p.videoUrl = url ∧ p.timestamp = now)
    (hok : (popSched s.storage).1 = none) :
    saveToDownloads v s =
      { ((saveProcess (completedEntry v url now) { s with times := rest }).2) with
          savedDownloads := v.name ::
            ((saveProcess (completedEntry v url now)
                { s with times := rest }).2).savedDownloads } := by
  have hts' : (completedEntry v url now).timestamp ≠ 0 := hnow
  have hname' : (completedEntry v url now).name ≠ "" := sanitizeName_ne v.name
  have hdup' : ¬ ∃ p ∈ ({ s with times := rest } : DState).processes,
      p.videoUrl = (completedEntry v url now).videoUrl ∧
        p.timestamp = (completedEntry v url now).timestamp := by
    simpa [completedEntry] using hdup
  have hok' : (popSched ({ s with times := rest } : DState).storage).1 = none := hok
  unfold saveToDownloads
  simp only [hru]
  rw [if_neg hpre, if_neg hne]
  simp only [dateNow, htimes]
  rw [saveProcess_insert (completedEntry v url now) { s with times := rest }
      hts' hname' hdup' hok']
  rfl

theorem updateItem_done (v : Video) (s : DState) (url : String)
    (now : Nat) (rest : List Nat)
    (hdone : isDoneStatus v) (hurlT : urlTruthy v = true)
    (hru : v.result_video_url = some url) (hne : url ≠ "")
    (hns : v.name ∉ s.savedDownloads)
    (hpre : ¬ ∃ p ∈ s.processes, p.videoUrl = url ∧ p.name = v.name)
    (htimes : s.times = now :: rest)
    (hnow : now ≠ 0)
    (hdup : ¬ ∃ p ∈ s.processes, p.videoUrl = url ∧ p.timestamp = now)
    (hok : (popSched s.storage).1 = none) :
    updateItem v s =
      { ((saveProcess (completedEntry v url now) { s with times := rest }).2) with
          savedDownloads := v.name :: v.name ::
            ((saveProcess (completedEntry v url now)
                { s with times := rest }).2).savedDownloads } := by
  have hsd := saveToDownloads_done v s url now rest hru hne hpre htimes hnow hdup hok
  have hnf : v.status ≠ "failed" := by
    rcases hdone with h | h <;> (rw [h]; decide)
  refine updateItem_after_render v s _ ?_ ?_ hnf
  · unfold renderCardSave
    rw [if_pos ⟨hdone, hurlT⟩, if_neg hns, hsd]
  · exact List.mem_cons_self _ _

theorem updateItem_fresh (v : Video) (s : DState) (now : Nat) (rest : List Nat)
    (hsav : terminalSavable v)
    (hns : v.name ∉ s.savedDownloads)
    (htimes : s.times = now :: rest)
    (hnow : now ≠ 0)
    (hsched : s.storage.sched = [])
    (hts : ∀ p ∈ s.processes, p.timestamp ≠ now)
    (hurl : isDoneStatus v → ∀ p ∈ s.processes, p.videoUrl ≠ urlOf v) :
    (∃ e : ProcessRecord,
      (updateItem v s).journal = s.journal ++ [e] ∧ e.name = sanitizeName v.name) ∧
    (∀ n, n ∈ (updateItem v s).savedDownloads ↔ (n = v.name ∨ n ∈ s.savedDownloads)) ∧
    (updateItem v s).storage.sched = [] ∧
    (updateItem v s).times = rest ∧
    (∀ p ∈ (updateItem v s).processes,
      p ∈ s.processes ∨
        (p.timestamp = now ∧
          (p.videoUrl = "" ∨ (isDoneStatus v ∧ p.videoUrl = urlOf v)))) := by
  have hok : (popSched s.storage).1 = none := by rw [popSched_nil s.storage hsched]
  rcases hsav with ⟨hdone, hurlT⟩ | hst
  · rcases hru : v.result_video_url with _ | url
    · exact absurd hurlT (by simp [urlTruthy, hru])
    · have hne : url ≠ "" := by simpa [urlTruthy, hru] using hurlT
      have hOf : urlOf v = url := by simp [urlOf, hru]
      have hpre : ¬ ∃ p ∈ s.processes, p.videoUrl = url ∧ p.name = v.name := by
        rintro ⟨p, hp, hpu, _⟩
        exact hurl hdone p hp (hOf ▸ hpu)
      have hdup : ¬ ∃ p ∈ s.processes, p.videoUrl = url ∧ p.timestamp = now := by
        rintro ⟨p, hp, _, hptt⟩
        exact hts p hp hptt
      have hts' : (completedEntry v url now).timestamp ≠ 0 := hnow
      have hname' : (completedEntry v url now).name ≠ "" := sanitizeName_ne v.name
      have hdup' : ¬ ∃ p ∈ ({ s with times := rest } : DState).processes,
          p.videoUrl = (completedEntry v url now).videoUrl ∧
            p.timestamp = (completedEntry v url now).timestamp := by
        rintro ⟨p, hp, hpu, hptt⟩
        exact hts p hp hptt
      have hok' : (popSched ({ s with times := rest } : DState).storage).1 = none := hok
      rw [updateItem_done v s url now rest hdone hurlT hru hne hns hpre htimes hnow hdup hok,
        saveProcess_insert (completedEntry v url now) { s with times := rest }
          hts' hname' hdup' hok']
      refine ⟨⟨(assignId (completedEntry v url now) { s with times := rest }).1, rfl, ?_⟩,
        ?_, ?_, rfl, ?_⟩
      · rw [assignId_fst_name]
        rfl
      · intro n
        simp only [List.mem_cons]
        tauto
      · show ((popSched ({ s with times := rest } : DState).storage).2).sched = []
        rw [popSched_nil _ (show ({ s with times := rest } : DState).storage.sched = []
          from hsched)]
        exact hsched
      · intro p hp
        have hp2 := insertTrim_subset p _ hp
        rcases List.mem_cons.1 hp2 with hp3 | hp3
        · right
          refine ⟨?_, Or.inr ⟨hdone, ?_⟩⟩
          · rw [hp3, assignId_fst_timestamp]
            rfl
          · rw [hp3, assignId_fst_videoUrl, hOf]
            rfl
        · exact Or.inl hp3
  · have hts' : (failedEntry v now).timestamp ≠ 0 := hnow
    have hname' : (failedEntry v now).name ≠ "" := sanitizeName_ne v.name
    have hdup' : ¬ ∃ p ∈ ({ s with times := rest } : DState).processes,
        p.videoUrl = (failedEntry v now).videoUrl ∧
          p.timestamp = (failedEntry v now).timestamp := by
      rintro ⟨p, hp, _, hptt⟩
      exact hts p hp hptt
    have hok' : (popSched ({ s with times := rest } : DState).storage).1 = none := hok
    rw [updateItem_failed v s now rest hst hns htimes,
      saveProcess_insert (failedEntry v now) { s with times := rest } hts' hname' hdup' hok']
    refine ⟨⟨(assignId (failedEntry v now) { s with times := rest }).1, rfl, ?_⟩,
      ?_, ?_, rfl, ?_⟩
    · rw [assignId_fst_name]
      rfl
    · intro n
      simp only [List.mem_cons]
    · show ((popSched ({ s with times := rest } : DState).storage).2).sched = []
      rw [popSched_nil _ (show ({ s with times := rest } : DState).storage.sched = []
        from hsched)]
      exact hsched
    · intro p hp
      have hp2 := insertTrim_subset p _ hp
      rcases List.mem_cons.1 hp2 with hp3 | hp3
      · right
        refine ⟨?_, Or.inl ?_⟩
        · rw [hp3, assignId_fst_timestamp]
          rfl
        · rw [hp3, assignId_fst_videoUrl]
          rfl
      · exact Or.inl hp3

theorem urlOf_ne_of_truthy (v : Video) (h : urlTruthy v = true) : urlOf v ≠ "" := by
  unfold urlTruthy at h
  unfold urlOf
  cases hr : v.result_video_url with
  | none => rw [hr] at h; simp at h
  | some u => rw [hr] at h; simpa using h

theorem done_ne_failed (v : Video) (hd : isDoneStatus v) : v.status ≠ "failed" := by
  rcases hd with h | h <;> (rw [h]; decide)

theorem updateVideoList_fresh (vs : List Video) :
    ∀ (s : DState) (ts rest : List Nat),
    s.times = ts ++ rest →
    ts.length = vs.length →
    ts.Nodup →
    (∀ t ∈ ts, t ≠ 0) →
    (∀ v ∈ vs, terminalSavable v) →
    vs.Pairwise (fun a b => a.name ≠ b.name) →
    vs.Pairwise (fun a b => isDoneStatus a → isDoneStatus b → urlOf a ≠ urlOf b) →
    (∀ v ∈ vs, v.name ∉ s.savedDownloads) →
    s.storage.sched = [] →
    (∀ p ∈ s.processes, p.timestamp ∉ ts) →
    (∀ p ∈ s.processes, p.videoUrl = "" ∨
        ∀ v ∈ vs, isDoneStatus v → p.videoUrl ≠ urlOf v) →
    ((updateVideoList vs s).journal.map (fun p => p.name) =
        s.journal.map (fun p => p.name) ++ vs.map (fun v => sanitizeName v.name)) ∧
    (∀ n, n ∈ (updateVideoList vs s).savedDownloads ↔
        ((∃ v ∈ vs, n = v.name) ∨ n ∈ s.savedDownloads)) ∧
    (updateVideoList vs s).storage.sched = [] ∧
    (updateVideoList vs s).times = rest ∧
    (∀ p ∈ (updateVideoList vs s).processes,
        p ∈ s.processes ∨
          (p.timestamp ∈ ts ∧
            (p.videoUrl = "" ∨ ∃ v ∈ vs, isDoneStatus v ∧ p.videoUrl = urlOf v))) := by
  induction vs with
  | nil =>
    intro s ts rest htimes hlen hnodup hnz hsav hnames hurls hsaved hsched htsf hpurl
    have hts0 : ts = [] := List.length_eq_zero.mp (by simpa using hlen)
    subst hts0
    refine ⟨by simp [updateVideoList], by simp [updateVideoList], ?_, ?_, ?_⟩
    · exact hsched
    · simpa using htimes
    · intro p hp
      exact Or.inl hp
  | cons v vs ih =>
    intro s ts rest htimes hlen hnodup hnz hsav hnames hurls hsaved hsched htsf hpurl
    cases ts with
    | nil => simp at hlen
    | cons t ts' =>
      have hmemv : v ∈ v :: vs := List.mem_cons_self v vs
      have hurlTofDone : isDoneStatus v → urlTruthy v = true := by
        intro hd
        rcases hsav v hmemv with ⟨_, h⟩ | h
        · exact h
        · exact absurd h (done_ne_failed v hd)
      have hstep := updateItem_fresh v s t (ts' ++ rest)
        (hsav v hmemv) (hsaved v hmemv) (by simpa using htimes)
        (hnz t (List.mem_cons_self t ts')) hsched
        (fun p hp ht => htsf p hp (ht ▸ List.mem_cons_self t ts'))
        (by
          intro hd p hp
          rcases hpurl p hp with h0 | hall
          · intro heq
            exact urlOf_ne_of_truthy v (hurlTofDone hd) (heq.symm.trans h0)
          · exact hall v hmemv hd)
      obtain ⟨⟨e, hj, hen⟩, hsv, hsch', ht', hproc⟩ := hstep
      have hih := ih (updateItem v s) ts' rest ht'
        (by simpa using hlen) (List.nodup_cons.1 hnodup).2
        (fun x hx => hnz x (List.mem_cons_of_mem t hx))
        (fun w hw => hsav w (List.mem_cons_of_mem v hw))
        (List.Pairwise.of_cons hnames) (List.Pairwise.of_cons hurls)
        (by
          intro w hw hmem'
          rcases (hsv w.name).1 hmem' with heq | hmem2
          · exact (List.pairwise_cons.1 hnames).1 w hw heq.symm
          · exact hsaved w (List.mem_cons_of_mem v hw) hmem2)
        hsch'
        (by
          intro p hp
          rcases hproc p hp with hp0 | ⟨hteq, _⟩
          · exact fun hmem => htsf p hp0 (List.mem_cons_of_mem t hmem)
          · rw [hteq]
            exact (List.nodup_cons.1 hnodup).1)
        (by
          intro p hp
          rcases hproc p hp with hp0 | ⟨_, hv⟩
          · rcases hpurl p hp0 with h0 | hall
            · exact Or.inl h0
            · exact Or.inr (fun w hw => hall w (List.mem_cons_of_mem v hw))
          · rcases hv with h0 | ⟨hdv, hpu⟩
            · exact Or.inl h0
            · refine Or.inr ?_
              intro w hw hdw heq
              exact (List.pairwise_cons.1 hurls).1 w hw hdv hdw (hpu ▸ heq))
      obtain ⟨ihj, ihsv, ihsch, ihtimes, ihproc⟩ := hih
      have hfold : updateVideoList (v :: vs) s = updateVideoList vs (updateItem v s) := rfl
      rw [hfold]
      refine ⟨?_, ?_, ihsch, ihtimes, ?_⟩
      · rw [ihj, hj, List.map_append]
        simp [hen, List.append_assoc]
      · intro n
        rw [ihsv n, hsv n]
        constructor
        · rintro (⟨w, hw, hnw⟩ | (heq | hmem))
          · exact Or.inl ⟨w, List.mem_cons_of_mem v hw, hnw⟩
          · exact Or.inl ⟨v, List.mem_cons_self v vs, heq⟩
          · exact Or.inr hmem
        · rintro (⟨w, hw, hnw⟩ | hmem)
          · rcases List.mem_cons.1 hw with hwv | hwvs
            · exact Or.inr (Or.inl (hwv ▸ hnw))
            · exact Or.inl ⟨w, hwvs, hnw⟩
          · exact Or.inr (Or.inr hmem)
      · intro p hp
        rcases ihproc p hp with hp1 | ⟨htmem, hu⟩
        · rcases hproc p hp1 with hp0 | ⟨hteq, hu0⟩
          · exact Or.inl hp0
          · refine Or.inr ⟨hteq ▸ List.mem_cons_self t ts', ?_⟩
            rcases hu0 with h0 | ⟨hd, hpu⟩
            · exact Or.inl h0
            · exact Or.inr ⟨v, hmemv, hd, hpu⟩
        · refine Or.inr ⟨List.mem_cons_of_mem t htmem, ?_⟩
          rcases hu with h0 | ⟨w, hw, hdw, hpu⟩
          · exact Or.inl h0
          · exact Or.inr ⟨w, List.mem_cons_of_mem v hw, hdw, hpu⟩

/-- C1 (amended): starting from a fresh store, for a batch of terminal
items with pairwise-distinct sanitized names, pairwise-distinct result URLs
among completed items, and pairwise-distinct non-zero clock readings, the
first tick appends exactly one history record per item and marks its name
saved, and any number of further ticks observing the same terminal
snapshot appends nothing more: over the ghost journal of insertions each
item ends with exactly one record.  The `savedDownloads` flag, not the
tick, decides whether the side effect fires again.  The distinctness
provisos are forced by the counterexample below. -/
theorem c1_exactly_once (vs : List Video) (ts rest : List Nat) (s : DState) (n : Nat)
    (hp0 : s.processes = []) (hsv0 : s.savedDownloads = []) (hj0 : s.journal = [])
    (hsched : s.storage.sched = [])
    (htimes : s.times = ts ++ rest) (hlen : ts.length = vs.length)
    (hnodup : ts.Nodup) (hnz : ∀ t ∈ ts, t ≠ 0)
    (hsav : ∀ v ∈ vs, terminalSavable v)
    (hsan : (vs.map (fun v => sanitizeName v.name)).Nodup)
    (hurls : vs.Pairwise (fun a b => isDoneStatus a → isDoneStatus b → urlOf a ≠ urlOf b)) :
    ∀ v ∈ vs,
      ((pollTicks vs (n + 1) s).journal.map (fun p => p.name)).count
          (sanitizeName v.name) = 1 := by
  have hnames : vs.Pairwise (fun a b => a.name ≠ b.name) := by
    have h2 := List.pairwise_map.mp hsan
    exact List.Pairwise.imp (fun h hnn => h (by rw [hnn])) h2
  have hfold := updateVideoList_fresh vs s ts rest htimes hlen hnodup hnz hsav hnames hurls
    (by rw [hsv0]; intro v hv h; simp at h) hsched
    (by rw [hp0]; intro p hp; simp at hp)
    (by rw [hp0]; intro p hp; simp at hp)
  obtain ⟨hj, hsv, _, _, _⟩ := hfold
  have hsat : ∀ v ∈ vs, v.name ∈ (updateVideoList vs s).savedDownloads := by
    intro v hv
    exact (hsv v.name).2 (Or.inl ⟨v, hv, rfl⟩)
  intro v hv
  show ((pollTicks vs n (updateVideoList vs s)).journal.map (fun p => p.name)).count
      (sanitizeName v.name) = 1
  rw [pollTicks_saturated vs n (updateVideoList vs s) hsat]
  rw [hj, hj0]
  simp only [List.map_nil, List.nil_append]
  exact List.count_eq_one_of_mem hsan (List.mem_map.2 ⟨v, hv, rfl⟩)

def c1fA : Video := { name := "a", status := "failed" }

def c1fB : Video := { name := "b", status := "failed" }

def c1cex : DState := { times := [7, 7] }

/-- Counterexample to C1 as stated: two failed items first observed in the
same tick obtain the same `Date.now()` reading; the second item's record is
rejected as a duplicate of the (`videoUrl = ''`, `timestamp`) key while the
item is still marked saved, so the second item never gets a record — on
this input zero records are persisted for item `b`, not exactly one, and
further ticks change nothing. -/
theorem c1_counterexample :
    c1fB.status = "failed" ∧
    ((updateVideoList [c1fA, c1fB] c1cex).journal.map (fun p => p.name)).count
        (sanitizeName c1fB.name) = 0 ∧
    c1fB.name ∈ (updateVideoList [c1fA, c1fB] c1cex).savedDownloads ∧
    ((pollTicks [c1fA, c1fB] 2 c1cex).journal.map (fun p => p.name)).count
        (sanitizeName c1fB.name) = 0 := by
  refine ⟨rfl, by decide, by decide, by decide⟩

def c1wVid : Video := { name := "w", status := "failed", error := "x" }

def c1wS : DState := { times := [3] }

/-- Witness for the amended C1: a single failed item observed over two
ticks is persisted exactly once. -/
theorem c1_witness :
    ((pollTicks [c1wVid] (1 + 1) c1wS).journal.map (fun p => p.name)).count
        (sanitizeName c1wVid.name) = 1 :=
  c1_exactly_once [c1wVid] [3] [] c1wS 1 rfl rfl rfl rfl rfl rfl (by decide) (by decide)
    (by decide) (by decide) (by decide) c1wVid (by decide)
